import Mathlib

/-!
Verification of the register-codec and accumulator-guard helpers of the
solaredge-modbus-multi integration, embedded shallowly from
`custom_components/solaredge_modbus_multi/helpers.py`.

Python strings and bytes are modelled as lists of natural-number code points /
byte values; Python's arbitrary-precision integers as `Int`; the numeric result
of `value * 10 ** sf` as an exact rational.  Raising an exception is modelled
with `Except`; mutation of `self.last` is modelled by returning the new state.
-/

deriving instance DecidableEq for Except

namespace SolarEdge

/-! ## Accumulator guard (`update_accum`) -/

/-- The two `ValueError`s `update_accum` can raise. -/
inductive AccumError where
  | nonPositive
  | nonMonotonic
deriving DecidableEq, Repr

/-- Shallow embedding of `helpers.update_accum`.  The Python function mutates
`self.last`; here the state (`Option Int`, `none` for Python `None`) is passed
in and the new state is returned next to the result.  Mirrors the source line
by line: first `if self.last is None: self.last = 0`, then the positivity
check, then the monotonicity check. -/
def update_accum (last : Option Int) (accum_value : Int) :
    Except AccumError Int × Option Int :=
  let last0 : Int := match last with
    | none => 0
    | some v => v
  if ¬ accum_value > 0 then
    (Except.error AccumError.nonPositive, some last0)
  else if accum_value ≥ last0 then
    (Except.ok accum_value, some accum_value)
  else
    (Except.error AccumError.nonMonotonic, some last0)

/-- The accumulator ratchet exactly as the spec orders its cases:
reject non-positive first (leaving the state untouched), then initialize on
`None`, then ratchet. -/
def update_accumulator_spec (last : Option Int) (candidate : Int) :
    Except AccumError Int × Option Int :=
  if candidate ≤ 0 then
    (Except.error AccumError.nonPositive, last)
  else
    match last with
    | none => (Except.ok candidate, some candidate)
    | some v =>
        if candidate ≥ v then (Except.ok candidate, some candidate)
        else (Except.error AccumError.nonMonotonic, last)

/-- Running a whole sequence of `update_accum` calls against one state,
keeping only the state (exceptions are reported to the caller but the
state object survives them). -/
def runAccum (last : Option Int) (candidates : List Int) : Option Int :=
  candidates.foldl (fun st c => (update_accum st c).2) last

/-- The state predicate claimed by the spec: `last` is `None` or positive. -/
def accumPos : Option Int → Prop
  | none => True
  | some v => 0 < v

/-- The state predicate the code actually preserves: `last` is `None` or
non-negative. -/
def accumNonneg : Option Int → Prop
  | none => True
  | some v => 0 ≤ v

instance (s : Option Int) : Decidable (accumPos s) := by
  unfold accumPos; cases s <;> infer_instance

instance (s : Option Int) : Decidable (accumNonneg s) := by
  unfold accumNonneg; cases s <;> infer_instance

/-! ## Scale factor -/

/-- Python's `base ** exp` on integers raises `ZeroDivisionError` exactly when
the base is zero and the exponent negative. -/
def pyPowZeroDiv (base exp : Int) : Bool :=
  base = 0 && exp < 0

/-- The body of `scale_factor`'s `try` block: `value * (10 ** sf)` as an exact
rational, or the `ZeroDivisionError` the `except` clause would catch. -/
def scale_factor_try (value sf : Int) : Except Unit ℚ :=
  if pyPowZeroDiv 10 sf then Except.error ()
  else Except.ok ((value : ℚ) * (10 : ℚ) ^ sf)

/-- Shallow embedding of `helpers.scale_factor`: the `try` body, with the
`except ZeroDivisionError` fallback returning 0. -/
def scale_factor (value sf : Int) : ℚ :=
  match scale_factor_try value sf with
  | Except.ok r => r
  | Except.error _ => 0

/-! ## Register codec (`parse_modbus_string`)

Python `bytes` are lists of byte values, Python `str` lists of Unicode code
points. -/

/-- A UTF-8 continuation byte. -/
def utf8IsCont (b : Nat) : Bool :=
  0x80 ≤ b && b ≤ 0xBF

/-- Valid second byte of a multi-byte UTF-8 sequence headed by `b0`, per the
restricted ranges CPython enforces (no overlong forms, no surrogates, no code
points above U+10FFFF). -/
def utf8SecondOk (b0 b1 : Nat) : Bool :=
  if b0 = 0xE0 then 0xA0 ≤ b1 && b1 ≤ 0xBF
  else if b0 = 0xED then 0x80 ≤ b1 && b1 ≤ 0x9F
  else if b0 = 0xF0 then 0x90 ≤ b1 && b1 ≤ 0xBF
  else if b0 = 0xF4 then 0x80 ≤ b1 && b1 ≤ 0x8F
  else utf8IsCont b1

/-- CPython's UTF-8 decoder under `errors="ignore"`: well-formed sequences
decode to their code point; on an ill-formed sequence the maximal valid
subpart is skipped and decoding resumes at the offending byte; a truncated
sequence at end of input is dropped. -/
def utf8DecodeIgnore : List Nat → List Nat
  | [] => []
  | b0 :: rest =>
    if b0 < 0x80 then b0 :: utf8DecodeIgnore rest
    else if b0 < 0xC2 then utf8DecodeIgnore rest
    else if b0 < 0xE0 then
      match hr : rest with
      | [] => []
      | b1 :: rest1 =>
        if utf8IsCont b1 then
          ((b0 - 0xC0) * 0x40 + (b1 - 0x80)) :: utf8DecodeIgnore rest1
        else utf8DecodeIgnore rest
    else if b0 < 0xF0 then
      match hr : rest with
      | [] => []
      | b1 :: rest1 =>
        if utf8SecondOk b0 b1 then
          match hr1 : rest1 with
          | [] => []
          | b2 :: rest2 =>
            if utf8IsCont b2 then
              ((b0 - 0xE0) * 0x1000 + (b1 - 0x80) * 0x40 + (b2 - 0x80)) ::
                utf8DecodeIgnore rest2
            else utf8DecodeIgnore rest1
        else utf8DecodeIgnore rest
    else if b0 < 0xF5 then
      match hr : rest with
      | [] => []
      | b1 :: rest1 =>
        if utf8SecondOk b0 b1 then
          match hr1 : rest1 with
          | [] => []
          | b2 :: rest2 =>
            if utf8IsCont b2 then
              match hr2 : rest2 with
              | [] => []
              | b3 :: rest3 =>
                if utf8IsCont b3 then
                  ((b0 - 0xF0) * 0x40000 + (b1 - 0x80) * 0x1000 +
                      (b2 - 0x80) * 0x40 + (b3 - 0x80)) ::
                    utf8DecodeIgnore rest3
                else utf8DecodeIgnore rest2
            else utf8DecodeIgnore rest1
        else utf8DecodeIgnore rest
    else utf8DecodeIgnore rest
termination_by l => l.length
decreasing_by all_goals simp_all [List.length_cons] <;> omega

/-- The code points Python's `str.rstrip()` (no argument) strips: the
characters `str.isspace` accepts. -/
def pyIsSpace (c : Nat) : Bool :=
  (0x09 ≤ c && c ≤ 0x0D) || (0x1C ≤ c && c ≤ 0x1F) || c = 0x20 || c = 0x85 ||
    c = 0xA0 || c = 0x1680 || (0x2000 ≤ c && c ≤ 0x200A) || c = 0x2028 ||
    c = 0x2029 || c = 0x202F || c = 0x205F || c = 0x3000

/-- Python `str.rstrip()`. -/
def pyRstrip (l : List Nat) : List Nat :=
  (l.reverse.dropWhile pyIsSpace).reverse

/-- Python `str.replace("\x00", "")`: every NUL code point is removed,
wherever it occurs. -/
def removeNul (l : List Nat) : List Nat :=
  l.filter (fun c => c != 0)

/-- Shallow embedding of `helpers.parse_modbus_string`:
`s.decode(encoding="utf-8", errors="ignore").replace("\x00", "").rstrip()`
on a `bytes` argument. -/
def parse_modbus_string (b : List Nat) : List Nat :=
  pyRstrip (removeNul (utf8DecodeIgnore b))

/-- Modelled from the spec: the callers that turn a register block into the
byte payload handed to `parse_modbus_string` are not part of the extracted
source; the spec says `decode_text` "packs each 16-bit register as two
big-endian bytes". -/
def packBE (regs : List Nat) : List Nat :=
  regs.flatMap (fun r => [r / 0x100 % 0x100, r % 0x100])

/-- Modelled from the spec: `decode_text(registers)` — pack the registers
big-endian, then run the source's `parse_modbus_string` on the bytes. -/
def decode_text (regs : List Nat) : List Nat :=
  parse_modbus_string (packBE regs)

/-- The spec's wording of NUL stripping: remove every NUL character,
embedded ones included. -/
def stripNulSpec : List Nat → List Nat
  | [] => []
  | c :: t => if c = 0 then stripNulSpec t else c :: stripNulSpec t

/-- The spec's wording of right-trimming: drop whitespace characters from
the right end only. -/
def rstripSpec : List Nat → List Nat
  | [] => []
  | c :: t =>
    let r := rstripSpec t
    if r.isEmpty && pyIsSpace c then [] else c :: r

/-- The claim's description of `decode_text`: pack big-endian, decode UTF-8
dropping invalid sequences, remove every NUL, right-trim whitespace. -/
def decode_text_spec (regs : List Nat) : List Nat :=
  rstripSpec (stripNulSpec (utf8DecodeIgnore (packBE regs)))

/-- UTF-8 encoding of one Unicode scalar value. -/
def utf8EncodeChar (c : Nat) : List Nat :=
  if c < 0x80 then [c]
  else if c < 0x800 then [0xC0 + c / 0x40, 0x80 + c % 0x40]
  else if c < 0x10000 then
    [0xE0 + c / 0x1000, 0x80 + c / 0x40 % 0x40, 0x80 + c % 0x40]
  else
    [0xF0 + c / 0x40000, 0x80 + c / 0x1000 % 0x40, 0x80 + c / 0x40 % 0x40,
      0x80 + c % 0x40]

/-- UTF-8 encoding of a string of code points (Python `str.encode()`). -/
def utf8Encode (l : List Nat) : List Nat :=
  l.flatMap utf8EncodeChar

/-- A Unicode scalar value: what one element of a Python `str` can hold. -/
def UnicodeScalar (c : Nat) : Prop :=
  c < 0x110000 ∧ ¬ (0xD800 ≤ c ∧ c ≤ 0xDFFF)

/-- A Python value that is either a `str` or a `bytes`. -/
inductive PyStrOrBytes where
  | pyStr (s : List Nat)
  | pyBytes (b : List Nat)
deriving DecidableEq, Repr

/-- The one exception relevant here. -/
inductive PyExc where
  | attributeError
deriving DecidableEq, Repr

/-- `parse_modbus_string` as invoked on a Python value of either runtime
type.  The source annotates its parameter `s: str`, but its first operation
is `s.decode(...)`; `str` has no `decode` method, so a `str` argument raises
`AttributeError` before anything else runs, while a `bytes` argument runs the
body modelled by `parse_modbus_string`. -/
def parse_modbus_string_py : PyStrOrBytes → Except PyExc (List Nat)
  | PyStrOrBytes.pyStr _ => Except.error PyExc.attributeError
  | PyStrOrBytes.pyBytes b => Except.ok (parse_modbus_string b)

/-! ## Device-address list parser

The parser itself is not in the extracted source (only its tests are), so it
is modelled from the spec's grammar. -/

/-- The distinct rejection reasons the spec requires. -/
inductive DeviceListError where
  | emptyDeviceId
  | invalidDeviceId
  | invalidRangeFormat
  | invalidRangeLte
  | tooManyDevices
deriving DecidableEq, Repr

/-- Split a character list at every occurrence of the separator. -/
def splitOnChar (sep : Char) : List Char → List (List Char)
  | [] => [[]]
  | c :: t =>
    match splitOnChar sep t with
    | [] => if c = sep then [[], []] else [[c]]
    | h :: r => if c = sep then [] :: h :: r else (c :: h) :: r

/-- Modelled from the spec: `check_device_id` is not in the extracted source.
A token must be a non-empty digit string whose value lies in 1..247; an
empty token is an error distinct from a malformed (non-numeric) one. -/
def check_device_id (tok : List Char) : Except DeviceListError Nat :=
  if tok.isEmpty then Except.error DeviceListError.emptyDeviceId
  else if tok.all Char.isDigit then
    let n := tok.foldl (fun a c => a * 10 + (c.toNat - 48)) 0
    if 1 ≤ n ∧ n ≤ 247 then Except.ok n
    else Except.error DeviceListError.invalidDeviceId
  else Except.error DeviceListError.invalidDeviceId

/-- Modelled from the spec: one comma-separated token is either a bare id or
an inclusive range `A-B`; both endpoints are validated before `A ≤ B` is
checked; any other shape (two or more hyphens) is a malformed range. -/
def resolveToken (tok : List Char) : Except DeviceListError (List Nat) :=
  match splitOnChar (Char.ofNat 45) tok with
  | [t] =>
    (match check_device_id t with
     | Except.error e => Except.error e
     | Except.ok n => Except.ok [n])
  | [a, b] =>
    (match check_device_id a with
     | Except.error e => Except.error e
     | Except.ok x =>
       match check_device_id b with
       | Except.error e => Except.error e
       | Except.ok y =>
         if x ≤ y then Except.ok (List.range' x (y - x + 1))
         else Except.error DeviceListError.invalidRangeLte)
  | _ => Except.error DeviceListError.invalidRangeFormat

/-- Resolve every token, propagating the first error. -/
def resolveAll : List (List Char) → Except DeviceListError (List Nat)
  | [] => Except.ok []
  | t :: ts =>
    match resolveToken t with
    | Except.error e => Except.error e
    | Except.ok l =>
      match resolveAll ts with
      | Except.error e => Except.error e
      | Except.ok r => Except.ok (l ++ r)

/-- Insert into an ascending duplicate-free list, keeping it so. -/
def insertSorted (x : Nat) : List Nat → List Nat
  | [] => [x]
  | y :: t =>
    if x < y then x :: y :: t
    else if x = y then y :: t
    else y :: insertSorted x t

/-- Ascending duplicate-free normal form of a list. -/
def sortDedup (l : List Nat) : List Nat :=
  l.foldr insertSorted []

/-- Modelled from the spec: `device_list_from_string` is not in the extracted
source.  Split on commas, resolve each token, remove duplicates and sort
ascending, and reject more than 32 resolved ids. -/
def device_list_from_string (s : List Char) : Except DeviceListError (List Nat) :=
  match resolveAll (splitOnChar (Char.ofNat 44) s) with
  | Except.error e => Except.error e
  | Except.ok ids =>
    let out := sortDedup ids
    if 32 < out.length then Except.error DeviceListError.tooManyDevices
    else Except.ok out

theorem scale_factor_eq (value sf : Int) :
    scale_factor value sf = (value : ℚ) * (10 : ℚ) ^ sf := by
  unfold scale_factor scale_factor_try pyPowZeroDiv
  norm_num

/-- Complete case analysis of `update_accum` in terms of the pre-state. -/
theorem update_accum_cases (last : Option Int) (c : Int) :
    update_accum last c =
      if c ≤ 0 then (Except.error AccumError.nonPositive, some (last.getD 0))
      else if last.getD 0 ≤ c then (Except.ok c, some c)
      else (Except.error AccumError.nonMonotonic, some (last.getD 0)) := by
  rcases last with _ | v <;>
    · unfold update_accum
      dsimp only [Option.getD]
      split_ifs <;> first | rfl | (exfalso; omega)

/-- If `update_accum` starts from an initialized state it stays initialized and
never decreases the stored value. -/
theorem update_accum_some_step (v c : Int) :
    ∃ w, (update_accum (some v) c).2 = some w ∧ v ≤ w := by
  rw [update_accum_cases]
  dsimp only [Option.getD]
  split_ifs with h1 h2
  · exact ⟨v, rfl, le_refl v⟩
  · exact ⟨c, rfl, h2⟩
  · exact ⟨v, rfl, le_refl v⟩

/-- C1: `update_accum` implements the spec's ratchet: its accept/reject
verdict (and raised error kind) agrees with the spec's case order — reject
non-positive candidates, accept unconditionally when uninitialized, accept
exactly the non-decreasing candidates otherwise — and on every accepted call
the returned value and the stored state also agree with the spec; the
concrete trace 100, 100, 50, 0, -5 from the uninitialized state behaves as
claimed. -/
theorem update_accum_implements_ratchet :
    (∀ (v c : Int), update_accum (some v) c = update_accumulator_spec (some v) c) ∧
    (∀ c : Int, (update_accum none c).1 = (update_accumulator_spec none c).1) ∧
    (∀ c : Int, 0 < c → update_accum none c = update_accumulator_spec none c) ∧
    update_accum none 100 = (Except.ok 100, some 100) ∧
    update_accum (some 100) 100 = (Except.ok 100, some 100) ∧
    update_accum (some 100) 50 = (Except.error AccumError.nonMonotonic, some 100) ∧
    update_accum (some 100) 0 = (Except.error AccumError.nonPositive, some 100) ∧
    update_accum (some 100) (-5) = (Except.error AccumError.nonPositive, some 100) := by
  refine ⟨?_, ?_, ?_, rfl, rfl, rfl, rfl, rfl⟩
  · intro v c
    rw [update_accum_cases]
    unfold update_accumulator_spec
    dsimp only [Option.getD] <;> (try split_ifs) <;> first | rfl | (exfalso; omega)
  · intro c
    rw [update_accum_cases]
    unfold update_accumulator_spec
    dsimp only [Option.getD] <;> (try split_ifs) <;> first | rfl | (exfalso; omega)
  · intro c hc
    rw [update_accum_cases]
    unfold update_accumulator_spec
    dsimp only [Option.getD] <;> (try split_ifs) <;> first | rfl | (exfalso; omega)

theorem update_accum_implements_ratchet_witness :
    update_accum none 7 = update_accumulator_spec none 7 :=
  update_accum_implements_ratchet.2.2.1 7 (by norm_num)

/-- C2 counterexample: from the uninitialized state, the rejected candidate 0
does modify the stored state — `update_accum` first replaces `None` by `0`
and only then raises, so `last` is `0` (not `None`) after the call. -/
theorem update_accum_reject_mutates_uninitialized :
    (update_accum none 0).1 = Except.error AccumError.nonPositive ∧
    (update_accum none 0).2 = some 0 ∧
    (update_accum none 0).2 ≠ none :=
  ⟨rfl, rfl, by simp [update_accum]⟩

/-- C2 amended: `update_accum` is atomic on rejection only from initialized
states: if `last` holds a number, a raising call leaves it unchanged; from
the uninitialized state a raising call leaves `last = 0` (the default written
by the initialization step), not `None`. -/
theorem update_accum_reject_preserves_initialized :
    (∀ (v c : Int) (e : AccumError),
        (update_accum (some v) c).1 = Except.error e →
        (update_accum (some v) c).2 = some v) ∧
    (∀ (c : Int) (e : AccumError),
        (update_accum none c).1 = Except.error e →
        (update_accum none c).2 = some 0) := by
  constructor
  · intro v c e h
    rw [update_accum_cases] at h ⊢
    dsimp only [Option.getD] at h ⊢
    split_ifs at h ⊢ <;> simp_all
  · intro c e h
    rw [update_accum_cases] at h ⊢
    dsimp only [Option.getD] at h ⊢
    split_ifs at h ⊢ <;> simp_all

theorem update_accum_reject_preserves_initialized_witness :
    (update_accum (some 5) 0).2 = some 5 ∧ (update_accum none 0).2 = some 0 :=
  ⟨update_accum_reject_preserves_initialized.1 5 0 AccumError.nonPositive rfl,
   update_accum_reject_preserves_initialized.2 0 AccumError.nonPositive rfl⟩

/-- C4 counterexample: the predicate "`last` is `None` or positive" holds of
the initial state but not after the single rejected call `update_accum s 0`,
which leaves `last = 0`. -/
theorem update_accum_pos_invariant_fails :
    accumPos none ∧
    (update_accum none 0).2 = some 0 ∧
    ¬ accumPos (update_accum none 0).2 :=
  ⟨trivial, rfl, by simp [update_accum, accumPos]⟩

/-- C4 amended: every call (accepting or rejecting) preserves "`last` is
`None` or non-negative", and from the initial state no sequence of calls can
leave `last` holding a negative number (it can leave the non-positive 0). -/
theorem update_accum_preserves_nonneg :
    (∀ (s : Option Int) (c : Int), accumNonneg s → accumNonneg (update_accum s c).2) ∧
    (∀ cs : List Int, accumNonneg (runAccum none cs)) := by
  have step : ∀ (s : Option Int) (c : Int),
      accumNonneg s → accumNonneg (update_accum s c).2 := by
    intro s c hs
    rcases s with _ | v <;>
      · rw [update_accum_cases]
        dsimp only [Option.getD]
        split_ifs <;> simp_all [accumNonneg] <;> omega
  refine ⟨step, ?_⟩
  intro cs
  have general : ∀ (cs : List Int) (s : Option Int),
      accumNonneg s → accumNonneg (runAccum s cs) := by
    intro cs
    induction cs with
    | nil => intro s hs; exact hs
    | cons c cs ih =>
        intro s hs
        exact ih _ (step s c hs)
  exact general cs none trivial

theorem update_accum_preserves_nonneg_witness :
    accumNonneg (update_accum (some 3) (-1)).2 :=
  update_accum_preserves_nonneg.1 (some 3) (-1) (by simp [accumNonneg])

/-- C5: the stored value never decreases: in a single call from an
initialized state, the number stored afterwards is at least the number stored
before, and the same holds across any sequence of calls. -/
theorem update_accum_never_decreases :
    (∀ (v c w : Int), (update_accum (some v) c).2 = some w → v ≤ w) ∧
    (∀ (v : Int) (cs : List Int) (w : Int),
        runAccum (some v) cs = some w → v ≤ w) := by
  have single : ∀ (v c w : Int), (update_accum (some v) c).2 = some w → v ≤ w := by
    intro v c w hw
    obtain ⟨w0, hw0, hle⟩ := update_accum_some_step v c
    rw [hw0] at hw
    cases hw
    exact hle
  refine ⟨single, ?_⟩
  intro v cs
  induction cs generalizing v with
  | nil =>
      intro w hw
      simp [runAccum] at hw
      omega
  | cons c cs ih =>
      intro w hw
      obtain ⟨w0, hw0, hle⟩ := update_accum_some_step v c
      have h2 : runAccum (some w0) cs = some w := by
        simpa [runAccum, List.foldl, hw0] using hw
      exact le_trans hle (ih w0 w h2)

theorem update_accum_never_decreases_witness :
    runAccum (some 1) [2, 4] = some 4 ∧ (1 : Int) ≤ 4 :=
  ⟨rfl, update_accum_never_decreases.2 1 [2, 4] 4 rfl⟩

/-- C6: `scale_factor value sf` is `value * 10 ^ sf` (as an exact number), and
in particular `scale_factor 100 (-2) = 1`, `scale_factor 100 2 = 10000`,
`scale_factor 100 0 = 100`. -/
theorem scale_factor_is_value_times_ten_pow :
    (∀ value sf : Int, scale_factor value sf = (value : ℚ) * (10 : ℚ) ^ sf) ∧
    scale_factor 100 (-2) = 1 ∧
    scale_factor 100 2 = 10000 ∧
    scale_factor 100 0 = 100 := by
  refine ⟨scale_factor_eq, ?_, ?_, ?_⟩ <;>
    · rw [scale_factor_eq]
      norm_num

/-- C7: `scale_factor` never propagates an exception: the body of its `try`
block always succeeds (the exponentiation `10 ** sf` cannot raise
`ZeroDivisionError` because the base is 10, not 0), so the defensive
`except` fallback to 0 is dead and the result is always `value * 10 ^ sf`. -/
theorem scale_factor_fallback_never_exercised :
    (∀ sf : Int, pyPowZeroDiv 10 sf = false) ∧
    (∀ value sf : Int,
        scale_factor_try value sf = Except.ok ((value : ℚ) * (10 : ℚ) ^ sf)) ∧
    (∀ value sf : Int, scale_factor value sf = (value : ℚ) * (10 : ℚ) ^ sf) := by
  refine ⟨?_, ?_, scale_factor_eq⟩
  · intro sf
    unfold pyPowZeroDiv
    norm_num
  · intro value sf
    unfold scale_factor_try pyPowZeroDiv
    norm_num

/-! ### Codec lemmas -/

/-- The spec's recursive NUL stripping is the source's `replace`-as-filter. -/
theorem stripNulSpec_eq (l : List Nat) : stripNulSpec l = removeNul l := by
  induction l with
  | nil => rfl
  | cons c t ih =>
      unfold stripNulSpec removeNul
      by_cases hc : c = 0 <;> simp_all [removeNul, List.filter_cons, hc]

/-- The spec's recursive right-trim is the source's reverse/dropWhile/reverse. -/
theorem rstripSpec_eq (l : List Nat) : rstripSpec l = pyRstrip l := by
  induction l with
  | nil => rfl
  | cons c t ih =>
      unfold rstripSpec pyRstrip
      rw [List.reverse_cons, List.dropWhile_append]
      by_cases hemp : (List.dropWhile pyIsSpace t.reverse).isEmpty
      · rw [if_pos hemp]
        have ht : pyRstrip t = [] := by
          unfold pyRstrip
          rw [List.isEmpty_iff] at hemp
          simp [hemp]
        by_cases hc : pyIsSpace c
        · simp [List.dropWhile, hc, ih, ht]
        · simp [List.dropWhile, hc, ih, ht]
      · rw [if_neg hemp]
        have ht : ¬ (rstripSpec t).isEmpty := by
          rw [ih]
          unfold pyRstrip
          simpa using hemp
        have hcond : ¬ ((rstripSpec t).isEmpty && pyIsSpace c) = true := by
          intro hcc
          rw [Bool.and_eq_true] at hcc
          exact ht hcc.1
        rw [if_neg hcond, List.reverse_append, ih]
        simp [pyRstrip]

/-- Membership in a right-trimmed list implies membership in the original. -/
theorem mem_pyRstrip {a : Nat} {l : List Nat} (h : a ∈ pyRstrip l) : a ∈ l := by
  unfold pyRstrip at h
  rw [List.mem_reverse] at h
  have := (List.dropWhile_sublist (l := l.reverse) pyIsSpace).mem h
  rwa [List.mem_reverse] at this

/-- Nothing the codec outputs is a NUL: `replace` removed them all and
`rstrip` only drops elements. -/
theorem zero_not_mem_parse (b : List Nat) : 0 ∉ parse_modbus_string b := by
  intro h
  have h2 := mem_pyRstrip h
  unfold removeNul at h2
  rw [List.mem_filter] at h2
  simp at h2

/-- On pure ASCII input the UTF-8 decoder is the identity. -/
theorem utf8DecodeIgnore_ascii (b : List Nat) (h : ∀ x ∈ b, x < 0x80) :
    utf8DecodeIgnore b = b := by
  induction b with
  | nil => simp [utf8DecodeIgnore]
  | cons b0 rest ih =>
      have hb0 : b0 < 0x80 := h b0 (List.mem_cons_self b0 rest)
      have hrest : ∀ x ∈ rest, x < 0x80 := fun x hx => h x (List.mem_cons_of_mem b0 hx)
      rw [utf8DecodeIgnore.eq_def]
      simp only []
      rw [if_pos hb0, ih hrest]

/-- Packing all-zero registers yields all-zero bytes. -/
theorem packBE_zero (regs : List Nat) (h : ∀ r ∈ regs, r = 0) :
    ∀ x ∈ packBE regs, x = 0 := by
  intro x hx
  unfold packBE at hx
  rw [List.mem_flatMap] at hx
  obtain ⟨r, hr, hxr⟩ := hx
  have := h r hr
  subst this
  simpa using hxr

/-- C3: `decode_text` is pack-big-endian, then UTF-8-decode dropping invalid
sequences, then remove every NUL (embedded included), then right-trim
whitespace; no NUL ever survives, and empty or all-NUL register input yields
the empty string. -/
theorem decode_text_matches_spec :
    (∀ regs : List Nat, decode_text regs = decode_text_spec regs) ∧
    (∀ regs : List Nat, 0 ∉ decode_text regs) ∧
    decode_text [] = [] ∧
    (∀ regs : List Nat, (∀ r ∈ regs, r = 0) → decode_text regs = []) := by
  refine ⟨?_, ?_, ?_, ?_⟩
  · intro regs
    unfold decode_text decode_text_spec parse_modbus_string
    rw [stripNulSpec_eq, rstripSpec_eq]
  case refine_3 =>
    simp [decode_text, parse_modbus_string, packBE, utf8DecodeIgnore, removeNul, pyRstrip]
  · intro regs
    exact zero_not_mem_parse (packBE regs)
  · intro regs h
    unfold decode_text parse_modbus_string
    have hz := packBE_zero regs h
    have hascii : ∀ x ∈ packBE regs, x < 0x80 := by
      intro x hx
      rw [hz x hx]
      norm_num
    rw [utf8DecodeIgnore_ascii _ hascii]
    have : removeNul (packBE regs) = [] := by
      unfold removeNul
      rw [List.filter_eq_nil_iff]
      intro a ha
      simp [hz a ha]
    rw [this]
    rfl

theorem decode_text_matches_spec_witness :
    decode_text [0x5465, 0x7374, 0, 0] = decode_text_spec [0x5465, 0x7374, 0, 0] ∧
    (0 : Nat) ∉ decode_text [0x5465, 0x7374, 0, 0] ∧
    decode_text [0, 0] = [] :=
  ⟨decode_text_matches_spec.1 [0x5465, 0x7374, 0, 0],
   decode_text_matches_spec.2.1 [0x5465, 0x7374, 0, 0],
   decode_text_matches_spec.2.2.2 [0, 0] (by decide)⟩

/-! ### One-step evaluation lemmas for the UTF-8 decoder -/

theorem dec_nil : utf8DecodeIgnore [] = [] := by
  simp [utf8DecodeIgnore]

theorem dec_ascii (b0 : Nat) (r : List Nat) (h : b0 < 0x80) :
    utf8DecodeIgnore (b0 :: r) = b0 :: utf8DecodeIgnore r := by
  rw [utf8DecodeIgnore.eq_def]
  simp only []
  rw [if_pos h]

theorem dec_badstart (b0 : Nat) (r : List Nat) (h1 : 0x80 ≤ b0) (h2 : b0 < 0xC2) :
    utf8DecodeIgnore (b0 :: r) = utf8DecodeIgnore r := by
  rw [utf8DecodeIgnore.eq_def]
  simp only []
  rw [if_neg (by omega), if_pos (by omega)]

theorem dec_two (b0 b1 : Nat) (r : List Nat) (h1 : 0xC2 ≤ b0) (h2 : b0 < 0xE0)
    (hc : utf8IsCont b1 = true) :
    utf8DecodeIgnore (b0 :: b1 :: r) =
      ((b0 - 0xC0) * 0x40 + (b1 - 0x80)) :: utf8DecodeIgnore r := by
  rw [utf8DecodeIgnore.eq_def]
  simp only []
  rw [if_neg (by omega), if_neg (by omega), if_pos (by omega), if_pos hc]

theorem dec_two_bad (b0 b1 : Nat) (r : List Nat) (h1 : 0xC2 ≤ b0) (h2 : b0 < 0xE0)
    (hc : ¬ utf8IsCont b1 = true) :
    utf8DecodeIgnore (b0 :: b1 :: r) = utf8DecodeIgnore (b1 :: r) := by
  rw [utf8DecodeIgnore.eq_def]
  simp only []
  rw [if_neg (by omega), if_neg (by omega), if_pos (by omega), if_neg hc]

theorem dec_two_end (b0 : Nat) (h1 : 0xC2 ≤ b0) (h2 : b0 < 0xE0) :
    utf8DecodeIgnore [b0] = [] := by
  rw [utf8DecodeIgnore.eq_def]
  simp only []
  rw [if_neg (by omega), if_neg (by omega), if_pos (by omega)]

theorem dec_three (b0 b1 b2 : Nat) (r : List Nat) (h1 : 0xE0 ≤ b0) (h2 : b0 < 0xF0)
    (hs : utf8SecondOk b0 b1 = true) (hc : utf8IsCont b2 = true) :
    utf8DecodeIgnore (b0 :: b1 :: b2 :: r) =
      ((b0 - 0xE0) * 0x1000 + (b1 - 0x80) * 0x40 + (b2 - 0x80)) ::
        utf8DecodeIgnore r := by
  rw [utf8DecodeIgnore.eq_def]
  simp only []
  rw [if_neg (by omega), if_neg (by omega), if_neg (by omega), if_pos (by omega),
    if_pos hs, if_pos hc]

theorem dec_three_bad3 (b0 b1 b2 : Nat) (r : List Nat) (h1 : 0xE0 ≤ b0) (h2 : b0 < 0xF0)
    (hs : utf8SecondOk b0 b1 = true) (hc : ¬ utf8IsCont b2 = true) :
    utf8DecodeIgnore (b0 :: b1 :: b2 :: r) = utf8DecodeIgnore (b2 :: r) := by
  rw [utf8DecodeIgnore.eq_def]
  simp only []
  rw [if_neg (by omega), if_neg (by omega), if_neg (by omega), if_pos (by omega),
    if_pos hs, if_neg hc]

theorem dec_three_bad2 (b0 b1 : Nat) (r : List Nat) (h1 : 0xE0 ≤ b0) (h2 : b0 < 0xF0)
    (hs : ¬ utf8SecondOk b0 b1 = true) :
    utf8DecodeIgnore (b0 :: b1 :: r) = utf8DecodeIgnore (b1 :: r) := by
  rw [utf8DecodeIgnore.eq_def]
  simp only []
  rw [if_neg (by omega), if_neg (by omega), if_neg (by omega), if_pos (by omega),
    if_neg hs]

theorem dec_three_end1 (b0 : Nat) (h1 : 0xE0 ≤ b0) (h2 : b0 < 0xF0) :
    utf8DecodeIgnore [b0] = [] := by
  rw [utf8DecodeIgnore.eq_def]
  simp only []
  rw [if_neg (by omega), if_neg (by omega), if_neg (by omega), if_pos (by omega)]

theorem dec_three_end2 (b0 b1 : Nat) (h1 : 0xE0 ≤ b0) (h2 : b0 < 0xF0)
    (hs : utf8SecondOk b0 b1 = true) :
    utf8DecodeIgnore [b0, b1] = [] := by
  rw [utf8DecodeIgnore.eq_def]
  simp only []
  rw [if_neg (by omega), if_neg (by omega), if_neg (by omega), if_pos (by omega),
    if_pos hs]

theorem dec_four (b0 b1 b2 b3 : Nat) (r : List Nat) (h1 : 0xF0 ≤ b0) (h2 : b0 < 0xF5)
    (hs : utf8SecondOk b0 b1 = true) (hc2 : utf8IsCont b2 = true)
    (hc3 : utf8IsCont b3 = true) :
    utf8DecodeIgnore (b0 :: b1 :: b2 :: b3 :: r) =
      ((b0 - 0xF0) * 0x40000 + (b1 - 0x80) * 0x1000 + (b2 - 0x80) * 0x40 +
          (b3 - 0x80)) :: utf8DecodeIgnore r := by
  rw [utf8DecodeIgnore.eq_def]
  simp only []
  rw [if_neg (by omega), if_neg (by omega), if_neg (by omega), if_neg (by omega),
    if_pos (by omega), if_pos hs, if_pos hc2, if_pos hc3]

theorem dec_four_bad4 (b0 b1 b2 b3 : Nat) (r : List Nat) (h1 : 0xF0 ≤ b0)
    (h2 : b0 < 0xF5) (hs : utf8SecondOk b0 b1 = true) (hc2 : utf8IsCont b2 = true)
    (hc3 : ¬ utf8IsCont b3 = true) :
    utf8DecodeIgnore (b0 :: b1 :: b2 :: b3 :: r) = utf8DecodeIgnore (b3 :: r) := by
  rw [utf8DecodeIgnore.eq_def]
  simp only []
  rw [if_neg (by omega), if_neg (by omega), if_neg (by omega), if_neg (by omega),
    if_pos (by omega), if_pos hs, if_pos hc2, if_neg hc3]

theorem dec_four_bad3 (b0 b1 b2 : Nat) (r : List Nat) (h1 : 0xF0 ≤ b0) (h2 : b0 < 0xF5)
    (hs : utf8SecondOk b0 b1 = true) (hc2 : ¬ utf8IsCont b2 = true) :
    utf8DecodeIgnore (b0 :: b1 :: b2 :: r) = utf8DecodeIgnore (b2 :: r) := by
  rw [utf8DecodeIgnore.eq_def]
  simp only []
  rw [if_neg (by omega), if_neg (by omega), if_neg (by omega), if_neg (by omega),
    if_pos (by omega), if_pos hs, if_neg hc2]

theorem dec_four_bad2 (b0 b1 : Nat) (r : List Nat) (h1 : 0xF0 ≤ b0) (h2 : b0 < 0xF5)
    (hs : ¬ utf8SecondOk b0 b1 = true) :
    utf8DecodeIgnore (b0 :: b1 :: r) = utf8DecodeIgnore (b1 :: r) := by
  rw [utf8DecodeIgnore.eq_def]
  simp only []
  rw [if_neg (by omega), if_neg (by omega), if_neg (by omega), if_neg (by omega),
    if_pos (by omega), if_neg hs]

theorem dec_four_end1 (b0 : Nat) (h1 : 0xF0 ≤ b0) (h2 : b0 < 0xF5) :
    utf8DecodeIgnore [b0] = [] := by
  rw [utf8DecodeIgnore.eq_def]
  simp only []
  rw [if_neg (by omega), if_neg (by omega), if_neg (by omega), if_neg (by omega),
    if_pos (by omega)]

theorem dec_four_end2 (b0 b1 : Nat) (h1 : 0xF0 ≤ b0) (h2 : b0 < 0xF5)
    (hs : utf8SecondOk b0 b1 = true) :
    utf8DecodeIgnore [b0, b1] = [] := by
  rw [utf8DecodeIgnore.eq_def]
  simp only []
  rw [if_neg (by omega), if_neg (by omega), if_neg (by omega), if_neg (by omega),
    if_pos (by omega), if_pos hs]

theorem dec_four_end3 (b0 b1 b2 : Nat) (h1 : 0xF0 ≤ b0) (h2 : b0 < 0xF5)
    (hs : utf8SecondOk b0 b1 = true) (hc2 : utf8IsCont b2 = true) :
    utf8DecodeIgnore [b0, b1, b2] = [] := by
  rw [utf8DecodeIgnore.eq_def]
  simp only []
  rw [if_neg (by omega), if_neg (by omega), if_neg (by omega), if_neg (by omega),
    if_pos (by omega), if_pos hs, if_pos hc2]

theorem dec_invalid (b0 : Nat) (r : List Nat) (h1 : 0xF5 ≤ b0) :
    utf8DecodeIgnore (b0 :: r) = utf8DecodeIgnore r := by
  rw [utf8DecodeIgnore.eq_def]
  simp only []
  rw [if_neg (by omega), if_neg (by omega), if_neg (by omega), if_neg (by omega),
    if_neg (by omega)]


/-! ### Decoder output validity -/

theorem cont_bounds {b : Nat} (h : utf8IsCont b = true) : 0x80 ≤ b ∧ b ≤ 0xBF := by
  simp [utf8IsCont] at h
  exact h

theorem secondOk_bounds {b0 b1 : Nat} (h : utf8SecondOk b0 b1 = true) :
    0x80 ≤ b1 ∧ b1 ≤ 0xBF ∧
      (b0 = 0xE0 → 0xA0 ≤ b1) ∧ (b0 = 0xED → b1 ≤ 0x9F) ∧
      (b0 = 0xF0 → 0x90 ≤ b1) ∧ (b0 = 0xF4 → b1 ≤ 0x8F) := by
  unfold utf8SecondOk utf8IsCont at h
  split_ifs at h with h1 h2 h3 h4 <;> simp at h <;> omega

set_option maxRecDepth 65536 in
set_option maxHeartbeats 2000000 in
theorem utf8DecodeIgnore_scalar (b : List Nat) :
    ∀ c ∈ utf8DecodeIgnore b, UnicodeScalar c := by
  induction b using utf8DecodeIgnore.induct <;>
    · intro c hc
      first
      | (rw [dec_nil] at hc; simp at hc)
      | (rw [dec_two_end _ (by omega) (by omega)] at hc; simp at hc)
      | (rw [dec_three_end1 _ (by omega) (by omega)] at hc; simp at hc)
      | (rw [dec_three_end2 _ _ (by omega) (by omega) (by assumption)] at hc
         simp at hc)
      | (rw [dec_four_end1 _ (by omega) (by omega)] at hc; simp at hc)
      | (rw [dec_four_end2 _ _ (by omega) (by omega) (by assumption)] at hc
         simp at hc)
      | (rw [dec_four_end3 _ _ _ (by omega) (by omega) (by assumption) (by assumption)] at hc
         simp at hc)
      | (rw [dec_ascii _ _ (by omega)] at hc
         rcases List.mem_cons.mp hc with rfl | hmem
         · exact ⟨by omega, by omega⟩
         · solve_by_elim)
      | (rw [dec_badstart _ _ (by omega) (by omega)] at hc; solve_by_elim)
      | (rw [dec_two _ _ _ (by omega) (by omega) (by assumption)] at hc
         rcases List.mem_cons.mp hc with rfl | hmem
         · simp only [utf8IsCont, Bool.and_eq_true, decide_eq_true_eq] at *
           exact ⟨by omega, by omega⟩
         · solve_by_elim)
      | (rw [dec_two_bad _ _ _ (by omega) (by omega) (by assumption)] at hc
         solve_by_elim)
      | (rw [dec_three _ _ _ _ (by omega) (by omega) (by assumption) (by assumption)] at hc
         rcases List.mem_cons.mp hc with rfl | hmem
         · have hs2 := secondOk_bounds (by assumption)
           simp only [utf8IsCont, Bool.and_eq_true, decide_eq_true_eq] at *
           exact ⟨by omega, by omega⟩
         · solve_by_elim)
      | (rw [dec_three_bad3 _ _ _ _ (by omega) (by omega) (by assumption) (by assumption)] at hc
         solve_by_elim)
      | (rw [dec_three_bad2 _ _ _ (by omega) (by omega) (by assumption)] at hc
         solve_by_elim)
      | (rw [dec_four _ _ _ _ _ (by omega) (by omega) (by assumption) (by assumption)
            (by assumption)] at hc
         rcases List.mem_cons.mp hc with rfl | hmem
         · have hs2 := secondOk_bounds (by assumption)
           simp only [utf8IsCont, Bool.and_eq_true, decide_eq_true_eq] at *
           exact ⟨by omega, by omega⟩
         · solve_by_elim)
      | (rw [dec_four_bad4 _ _ _ _ _ (by omega) (by omega) (by assumption) (by assumption)
            (by assumption)] at hc
         solve_by_elim)
      | (rw [dec_four_bad3 _ _ _ _ (by omega) (by omega) (by assumption) (by assumption)] at hc
         solve_by_elim)
      | (rw [dec_four_bad2 _ _ _ (by omega) (by omega) (by assumption)] at hc
         solve_by_elim)
      | (rw [dec_invalid _ _ (by omega)] at hc; solve_by_elim)

/-! ### Encoder/decoder round trip -/

set_option maxRecDepth 16384 in
/-- Decoding an encoded scalar consumes exactly its byte sequence. -/
theorem utf8_decode_encodeChar (c : Nat) (hc : UnicodeScalar c) (rest : List Nat) :
    utf8DecodeIgnore (utf8EncodeChar c ++ rest) = c :: utf8DecodeIgnore rest := by
  obtain ⟨hlt, hsur⟩ := hc
  by_cases h1 : c < 0x80
  · unfold utf8EncodeChar
    rw [if_pos h1]
    simp only [List.cons_append, List.nil_append]
    rw [dec_ascii _ _ h1]
  · by_cases h2 : c < 0x800
    · unfold utf8EncodeChar
      rw [if_neg h1, if_pos h2]
      simp only [List.cons_append, List.nil_append]
      rw [dec_two _ _ _ (by omega) (by omega) (by simp [utf8IsCont]; omega)]
      congr 1
      omega
    · by_cases h3 : c < 0x10000
      · unfold utf8EncodeChar
        rw [if_neg h1, if_neg h2, if_pos h3]
        simp only [List.cons_append, List.nil_append]
        have hsec : utf8SecondOk (0xE0 + c / 0x1000) (0x80 + c / 0x40 % 0x40) = true := by
          unfold utf8SecondOk utf8IsCont
          split_ifs with he0 hed <;> simp <;> omega
        rw [dec_three _ _ _ _ (by omega) (by omega) hsec (by simp [utf8IsCont]; omega)]
        congr 1
        omega
      · unfold utf8EncodeChar
        rw [if_neg h1, if_neg h2, if_neg h3]
        simp only [List.cons_append, List.nil_append]
        have hsec : utf8SecondOk (0xF0 + c / 0x40000) (0x80 + c / 0x1000 % 0x40) = true := by
          unfold utf8SecondOk utf8IsCont
          split_ifs with hf0 hf4 <;> simp <;> omega
        rw [dec_four _ _ _ _ _ (by omega) (by omega) hsec
          (by simp [utf8IsCont]; omega) (by simp [utf8IsCont]; omega)]
        congr 1
        omega

/-- UTF-8 decode is a left inverse of UTF-8 encode on scalar strings. -/
theorem utf8_decode_encode (cps : List Nat) (h : ∀ c ∈ cps, UnicodeScalar c) :
    utf8DecodeIgnore (utf8Encode cps) = cps := by
  induction cps with
  | nil => simpa [utf8Encode] using dec_nil
  | cons c t ih =>
      have hc := h c (List.mem_cons_self c t)
      have ht : ∀ x ∈ t, UnicodeScalar x := fun x hx => h x (List.mem_cons_of_mem c hx)
      unfold utf8Encode
      rw [List.flatMap_cons, utf8_decode_encodeChar c hc]
      rw [show t.flatMap utf8EncodeChar = utf8Encode t from rfl, ih ht]

/-- `dropWhile` is idempotent. -/
theorem dropWhile_idem (p : Nat → Bool) (l : List Nat) :
    List.dropWhile p (List.dropWhile p l) = List.dropWhile p l := by
  induction l with
  | nil => rfl
  | cons c t ih =>
      by_cases hc : p c
      · rw [List.dropWhile_cons_of_pos hc]
        exact ih
      · rw [List.dropWhile_cons_of_neg hc, List.dropWhile_cons_of_neg hc]

/-- `rstrip` is idempotent. -/
theorem pyRstrip_idem (l : List Nat) : pyRstrip (pyRstrip l) = pyRstrip l := by
  unfold pyRstrip
  rw [List.reverse_reverse, dropWhile_idem]

/-- Removing NULs from a NUL-free list does nothing. -/
theorem removeNul_of_no_nul (l : List Nat) (h : ∀ a ∈ l, a ≠ 0) :
    removeNul l = l := by
  unfold removeNul
  rw [List.filter_eq_self]
  intro a ha
  simpa using h a ha

/-- Everything `parse_modbus_string` outputs is a Unicode scalar. -/
theorem parse_scalar (b : List Nat) :
    ∀ c ∈ parse_modbus_string b, UnicodeScalar c := by
  intro c hc
  unfold parse_modbus_string at hc
  have h1 := mem_pyRstrip hc
  unfold removeNul at h1
  rw [List.mem_filter] at h1
  exact utf8DecodeIgnore_scalar b c h1.1

/-- C8 counterexample: the output of `parse_modbus_string` is a `str`, and the
function's first step is `s.decode(...)`, which a `str` does not support —
re-applying the function literally to its own output raises `AttributeError`
instead of returning the output: on bytes `[65]` the call returns the string
`"A"`, and applying the function to that string raises. -/
theorem parse_reapply_output_raises :
    parse_modbus_string_py (PyStrOrBytes.pyBytes [65]) = Except.ok [65] ∧
    parse_modbus_string_py (PyStrOrBytes.pyStr [65]) =
      Except.error PyExc.attributeError ∧
    parse_modbus_string_py (PyStrOrBytes.pyStr [65]) ≠ Except.ok [65] := by
  refine ⟨?_, rfl, by simp [parse_modbus_string_py]⟩
  show Except.ok (parse_modbus_string [65]) = Except.ok [65]
  have h : parse_modbus_string [65] = [65] := by
    simp [parse_modbus_string, utf8DecodeIgnore, removeNul, pyRstrip, pyIsSpace]
  rw [h]

/-- C8 amended: repeated calls on the same input agree (the function is pure
in the embedding), and re-application through the output's UTF-8 encoding —
the only way the `bytes`-consuming function can be re-applied to the `str` it
produced — returns the output unchanged. -/
theorem parse_modbus_string_idempotent :
    (∀ b : List Nat, parse_modbus_string b = parse_modbus_string b) ∧
    (∀ b : List Nat,
        parse_modbus_string (utf8Encode (parse_modbus_string b)) =
          parse_modbus_string b) := by
  refine ⟨fun _ => rfl, ?_⟩
  intro b
  show pyRstrip (removeNul (utf8DecodeIgnore (utf8Encode (parse_modbus_string b)))) =
    parse_modbus_string b
  rw [utf8_decode_encode _ (parse_scalar b)]
  rw [removeNul_of_no_nul _ (fun a ha hz => zero_not_mem_parse b (hz ▸ ha))]
  show pyRstrip (pyRstrip (removeNul (utf8DecodeIgnore b))) = parse_modbus_string b
  rw [pyRstrip_idem]
  rfl

/-- C10: the effective domain of `parse_modbus_string` is `bytes` despite the
`str` annotation: every `str` argument raises `AttributeError` (so a caller
passing the annotated type never gets a decoded string back), while every
`bytes` argument is decoded without raising. -/
theorem parse_modbus_string_effective_domain :
    (∀ s : List Nat,
        parse_modbus_string_py (PyStrOrBytes.pyStr s) =
          Except.error PyExc.attributeError) ∧
    (∀ b : List Nat,
        parse_modbus_string_py (PyStrOrBytes.pyBytes b) =
          Except.ok (parse_modbus_string b)) :=
  ⟨fun _ => rfl, fun _ => rfl⟩

/-! ### Device-list parser lemmas -/

theorem insertSorted_mem (x a : Nat) (l : List Nat) :
    a ∈ insertSorted x l ↔ a = x ∨ a ∈ l := by
  induction l with
  | nil => simp [insertSorted]
  | cons y t ih =>
      unfold insertSorted
      split_ifs with h1 h2 <;> simp_all <;> tauto

theorem insertSorted_chain (x : Nat) (l : List Nat)
    (h : List.Chain' (fun a b => a < b) l) :
    List.Chain' (fun a b => a < b) (insertSorted x l) := by
  induction l with
  | nil => simp [insertSorted]
  | cons y t ih =>
      unfold insertSorted
      split_ifs with h1 h2
      · exact List.chain'_cons.mpr ⟨h1, h⟩
      · exact h
      · have hparts := List.chain'_cons'.mp h
        have hy : y < x := by omega
        rw [List.chain'_cons']
        refine ⟨?_, ih hparts.2⟩
        intro b hb
        cases t with
        | nil =>
            simp [insertSorted] at hb
            omega
        | cons z t2 =>
            unfold insertSorted at hb
            split_ifs at hb with g1 g2 <;> simp at hb <;>
              · have hz := hparts.1 z (by simp)
                omega

theorem sortDedup_chain (l : List Nat) :
    List.Chain' (fun a b => a < b) (sortDedup l) := by
  induction l with
  | nil => simp [sortDedup]
  | cons x t ih => exact insertSorted_chain x _ ih

theorem sortDedup_mem (a : Nat) (l : List Nat) : a ∈ sortDedup l ↔ a ∈ l := by
  induction l with
  | nil => simp [sortDedup]
  | cons x t ih =>
      show a ∈ insertSorted x (sortDedup t) ↔ a ∈ x :: t
      rw [insertSorted_mem, ih, List.mem_cons]

theorem check_device_id_ok {t : List Char} {n : Nat}
    (h : check_device_id t = Except.ok n) : 1 ≤ n ∧ n ≤ 247 := by
  unfold check_device_id at h
  dsimp only [] at h
  split_ifs at h with h1 h2 h3 <;> simp_all <;> omega

theorem resolveToken_ok {t : List Char} {l : List Nat}
    (h : resolveToken t = Except.ok l) : ∀ x ∈ l, 1 ≤ x ∧ x ≤ 247 := by
  unfold resolveToken at h
  rcases hs : splitOnChar (Char.ofNat 45) t with _ | ⟨a, _ | ⟨b, _ | _⟩⟩ <;>
    rw [hs] at h <;> simp only [] at h
  · simp at h
  · cases hca : check_device_id a with
    | error e => rw [hca] at h; simp at h
    | ok n =>
        rw [hca] at h
        simp at h
        intro x hx
        rw [← h] at hx
        simp at hx
        rw [hx]
        exact check_device_id_ok hca
  · cases hca : check_device_id a with
    | error e => rw [hca] at h; simp at h
    | ok n =>
        rw [hca] at h
        cases hcb : check_device_id b with
        | error e => rw [hcb] at h; simp at h
        | ok m =>
            rw [hcb] at h
            simp only [] at h
            split_ifs at h with hle
            all_goals
              have ha := check_device_id_ok hca
              have hb := check_device_id_ok hcb
              have hl : List.range' n (m - n + 1) = l := by simpa using h
              intro q hq
              rw [← hl, List.mem_range'_1] at hq
              omega
  · simp at h

theorem resolveAll_ok (ts : List (List Char)) (l : List Nat)
    (h : resolveAll ts = Except.ok l) : ∀ x ∈ l, 1 ≤ x ∧ x ≤ 247 := by
  induction ts generalizing l with
  | nil =>
      unfold resolveAll at h
      have hl : l = [] := by simpa using h.symm
      subst hl
      simp
  | cons t ts ih =>
      unfold resolveAll at h
      cases hrt : resolveToken t with
      | error e => rw [hrt] at h; simp at h
      | ok l1 =>
          rw [hrt] at h
          cases hra : resolveAll ts with
          | error e => rw [hra] at h; simp at h
          | ok l2 =>
              rw [hra] at h
              have hl : l1 ++ l2 = l := by simpa using h
              intro x hx
              rw [← hl] at hx
              rcases List.mem_append.mp hx with h1 | h2
              · exact resolveToken_ok hrt x h1
              · exact ih l2 hra x h2

theorem device_list_ok {s : List Char} {l : List Nat}
    (h : device_list_from_string s = Except.ok l) :
    List.Chain' (fun a b => a < b) l ∧ (∀ x ∈ l, 1 ≤ x ∧ x ≤ 247) ∧
      l.length ≤ 32 := by
  unfold device_list_from_string at h
  cases hra : resolveAll (splitOnChar (Char.ofNat 44) s) with
  | error e => rw [hra] at h; simp at h
  | ok ids =>
      rw [hra] at h
      simp only [] at h
      split_ifs at h with hlen
      have hl : sortDedup ids = l := by simpa using h
      rw [← hl]
      exact ⟨sortDedup_chain ids,
        fun x hx => resolveAll_ok _ _ hra x ((sortDedup_mem x ids).mp hx),
        by omega⟩

/-- C9: the device-address parser maps the comma-separated grammar to the
duplicate-free ascending list of resolved ids, every id in 1..247 and at most
32 of them, and rejects: a range with end < start, an id out of 1..247, more
than 32 resolved ids, and an empty token — with an error distinct from the
malformed-token error.  Concretely "1,3-5,7" parses to [1,3,4,5,7] while
"5-3", "0", "248", "" and "1-33" are each rejected for the stated reason. -/
theorem device_list_grammar :
    (∀ (s : List Char) (l : List Nat),
        device_list_from_string s = Except.ok l →
        List.Chain' (fun a b => a < b) l ∧ (∀ x ∈ l, 1 ≤ x ∧ x ≤ 247) ∧
          l.length ≤ 32) ∧
    device_list_from_string [Char.ofNat 49, Char.ofNat 44, Char.ofNat 51,
        Char.ofNat 45, Char.ofNat 53, Char.ofNat 44, Char.ofNat 55] =
      Except.ok [1, 3, 4, 5, 7] ∧
    device_list_from_string [Char.ofNat 53, Char.ofNat 45, Char.ofNat 51] =
      Except.error DeviceListError.invalidRangeLte ∧
    device_list_from_string [Char.ofNat 48] =
      Except.error DeviceListError.invalidDeviceId ∧
    device_list_from_string [Char.ofNat 50, Char.ofNat 52, Char.ofNat 56] =
      Except.error DeviceListError.invalidDeviceId ∧
    device_list_from_string [] = Except.error DeviceListError.emptyDeviceId ∧
    device_list_from_string [Char.ofNat 49, Char.ofNat 45, Char.ofNat 51,
        Char.ofNat 51] = Except.error DeviceListError.tooManyDevices ∧
    DeviceListError.emptyDeviceId ≠ DeviceListError.invalidDeviceId := by
  exact ⟨fun s l h => device_list_ok h, by decide, by decide, by decide,
    by decide, by decide, by decide, by decide⟩

theorem device_list_grammar_witness :
    device_list_from_string [Char.ofNat 49] = Except.ok [1] ∧
    (List.Chain' (fun a b => a < b) [1] ∧ (∀ x ∈ [1], 1 ≤ x ∧ x ≤ 247) ∧
      List.length [1] ≤ 32) :=
  ⟨by decide, device_list_grammar.1 [Char.ofNat 49] [1] (by decide)⟩

end SolarEdge
